import Mathlib

/-!
Verification of the relevance-filtering and receipt-rendering pipeline of the
Discord-Receipts repository (src/discord_listener.py, src/receipt_printer.py).
Strings are modelled as lists of characters; the stateful printer calls are
modelled as directive lists produced in source order.
-/

namespace Receipts

/-- Character strings of the embedded program. -/
abbrev Str := List Char

/-- ASCII whitespace as recognised by Python str.split with no arguments. -/
def isWs (c : Char) : Bool :=
  c = ' ' || c = '\t' || c = '\n' || c = '\r' || c = '\x0b' || c = '\x0c'

/-- Accumulator form of Python str.split(): `cur` holds the current token reversed. -/
def pySplitAux : Str → Str → List Str
  | [], cur => if cur.isEmpty then [] else [cur.reverse]
  | c :: cs, cur =>
    if isWs c then
      (if cur.isEmpty then pySplitAux cs [] else cur.reverse :: pySplitAux cs [])
    else pySplitAux cs (c :: cur)

/-- Python content.split(): whitespace-separated tokens, no empties. -/
def pySplit (s : Str) : List Str := pySplitAux s []

/-- The loop body of ReceiptPrinter._print_content: greedily accumulate tokens
into `line`; when `len(line + word) < width` fails, flush the current line
(even if empty) and restart from the word; flush a non-empty remainder. -/
def wrapCore (width : Nat) : List Str → Str → List Str
  | [], line => if line.isEmpty then [] else [line]
  | w :: ws, line =>
    if (line ++ w).length < width then wrapCore width ws (line ++ w ++ [' '])
    else line :: wrapCore width ws (w ++ [' '])

/-- The word-wrap of ReceiptPrinter._print_content: the sequence of emitted lines
(each line as passed to printer.text, without the appended newline). -/
def wrap (content : Str) (width : Nat) : List Str := wrapCore width (pySplit content) []

/-- A guild as seen by the listener: its name and get_member, returning the
role-id set of a member or none when the user is not a member. -/
structure Guild where
  name : Str
  member : Nat → Option (List Nat)

/-- The message author (id, username, display name, avatar URL). -/
structure Author where
  id : Nat
  name : Str
  displayName : Str
  avatarUrl : Str

/-- A resolved reply target: message.reference.resolved (author id and name). -/
structure ResolvedRef where
  authorId : Nat
  authorName : Str

/-- An attachment: filename and URL. -/
structure Attachment where
  filename : Str
  url : Str

/-- Immutable snapshot of one Discord message as used by on_message and
print_message. reference models message.reference (outer Option) whose
resolved field may itself be missing (inner Option). -/
structure Message where
  guild : Option Guild
  channelName : Str
  author : Author
  content : Str
  mentions : List Nat
  roleMentions : List Nat
  mentionEveryone : Bool
  reference : Option (Option ResolvedRef)
  attachments : List Attachment

/-- any(user.id == target_user_id for user in message.mentions). -/
def isMentionFlag (m : Message) (target : Nat) : Bool :=
  m.mentions.any (fun u => u == target)

/-- The role-mention check of on_message / print_message: requires a guild and a
non-empty message.role_mentions, then intersects the member role set (when
get_member succeeds) with the mentioned role ids. -/
def roleMentionFlag (m : Message) (target : Nat) : Bool :=
  match m.guild with
  | none => false
  | some g =>
    if m.roleMentions.isEmpty then false
    else
      match g.member target with
      | none => false
      | some roles => roles.any (fun r => m.roleMentions.contains r)

/-- message.reference and message.reference.resolved and resolved.author.id == target. -/
def replyFlag (m : Message) (target : Nat) : Bool :=
  match m.reference with
  | some (some r) => r.authorId == target
  | _ => false

/-- The should_print decision of on_message: a DM always passes; a guild message
passes when any of the four mention rules fires. -/
def shouldPrint (m : Message) (target : Nat) : Bool :=
  match m.guild with
  | none => true
  | some _ =>
    isMentionFlag m target || roleMentionFlag m target || m.mentionEveryone ||
      replyFlag m target

/-- The relevance verdict: the pass decision of on_message together with the
four classification flags exactly as print_message computes them for badges. -/
structure Verdict where
  pass : Bool
  directMention : Bool
  roleMention : Bool
  broadcastMention : Bool
  replyTarget : Bool
deriving DecidableEq

/-- evaluate(event, monitoredId): pass/reject plus tags. -/
def evaluate (m : Message) (target : Nat) : Verdict :=
  ⟨shouldPrint m target, isMentionFlag m target, roleMentionFlag m target,
    m.mentionEveryone, replyFlag m target⟩

/-- Text alignment of printer.set. -/
inductive Align
  | left
  | center
deriving DecidableEq

/-- Font selection of printer.set. -/
inductive Font
  | fa
  | fb
deriving DecidableEq

/-- One print directive: a printer.set call (absent keyword arguments are none),
a printer.text call, a printer.image call (recorded by bitmap dimensions), or
a printer.cut call. -/
inductive Directive
  | setStyle (align : Option Align) (font : Option Font) (bold : Option Bool)
  | text (s : Str)
  | image (w h : Nat)
  | cut
deriving DecidableEq

/-- ReceiptPrinter._print_channel_header. -/
def printChannelHeader (m : Message) : List Directive :=
  Directive.setStyle (some Align.left) (some Font.fb) (some true) ::
    (match m.guild with
     | some g =>
       [Directive.text ("# ".toList ++ m.channelName ++ ['\n']),
        Directive.setStyle none (some Font.fb) (some false),
        Directive.text (g.name ++ ['\n'])]
     | none => [Directive.text "DIRECT MESSAGE\n".toList]) ++
    [Directive.text ['\n']]

/-- ReceiptPrinter._print_reply_indicator. -/
def printReplyIndicator (r : ResolvedRef) : List Directive :=
  [Directive.setStyle (some Align.left) (some Font.fb) (some false),
   Directive.text ("  Replying to ".toList ++ r.authorName ++ ['\n']),
   Directive.text ['\n']]

/-- ReceiptPrinter._print_avatar, given the result of the avatar fetch
(dimensions of the processed bitmap, or none on failure). -/
def printAvatar (fetched : Option (Nat × Nat)) : List Directive :=
  match fetched with
  | some wh => [Directive.setStyle (some Align.left) none none, Directive.image wh.1 wh.2]
  | none => []

/-- ReceiptPrinter._print_author_line. -/
def printAuthorLine (authorName timestamp : Str)
    (isMention isRoleMention isEveryone : Bool) : List Directive :=
  [Directive.setStyle (some Align.left) (some Font.fa) (some true),
   Directive.text authorName,
   Directive.setStyle none none (some false)] ++
  (if isMention then [Directive.text " @".toList] else []) ++
  (if isRoleMention then [Directive.text " @role".toList] else []) ++
  (if isEveryone then [Directive.text " @everyone".toList] else []) ++
  [Directive.setStyle none none (some false),
   Directive.text ("  ".toList ++ timestamp ++ ['\n'])]

/-- ReceiptPrinter._print_content: a style directive, then one text directive
per wrapped line with the newline appended. -/
def printContent (content : Str) (width : Nat) : List Directive :=
  Directive.setStyle (some Align.left) (some Font.fa) (some false) ::
    (wrap content width).map (fun l => Directive.text (l ++ ['\n']))

/-- The image filename extensions accepted by _print_attachments. -/
def imageExtensions : List Str :=
  [".jpg".toList, ".jpeg".toList, ".png".toList, ".gif".toList,
   ".webp".toList, ".bmp".toList]

/-- att.filename.lower().endswith(ext) for one of the image extensions. -/
def isImageFilename (filename : Str) : Bool :=
  imageExtensions.any (fun ext => ext.isSuffixOf (filename.map Char.toLower))

/-- The per-attachment body of _print_attachments: caption, then either the
image directive (with a trailing blank line) or a failure caption. -/
def printOneAttachment (fetchAtt : Str → Option (Nat × Nat)) (a : Attachment) :
    List Directive :=
  [Directive.setStyle (some Align.left) (some Font.fb) (some false),
   Directive.text ("[Image: ".toList ++ a.filename ++ "]\n".toList)] ++
  (match fetchAtt a.url with
   | some wh =>
     [Directive.setStyle (some Align.center) none none, Directive.image wh.1 wh.2,
      Directive.text ['\n']]
   | none => [Directive.text "(Failed to load image)\n".toList])

/-- ReceiptPrinter._print_attachments. -/
def printAttachments (fetchAtt : Str → Option (Nat × Nat)) (m : Message) :
    List Directive :=
  if m.attachments.isEmpty then []
  else
    let imgs := m.attachments.filter (fun a => isImageFilename a.filename)
    if imgs.isEmpty then []
    else Directive.text ['\n'] :: (imgs.map (printOneAttachment fetchAtt)).flatten

/-- ReceiptPrinter._print_separator. -/
def printSeparator : List Directive :=
  [Directive.cut]

/-- The conditional reply-indicator step of print_message. -/
def replySegment (m : Message) (target : Nat) : List Directive :=
  match m.reference with
  | some (some r) => if r.authorId == target then printReplyIndicator r else []
  | _ => []

/-- The full directive sequence emitted by print_message once connected, in
source order. Avatar and attachment fetches are supplied as oracles mapping a
URL to the processed bitmap dimensions (none on fetch failure); timestamp is
the wall-clock string computed at render time. -/
def renderDirectives (m : Message) (target : Nat) (timestamp : Str)
    (fetchAv fetchAtt : Str → Option (Nat × Nat)) (width : Nat) : List Directive :=
  printChannelHeader m ++
  replySegment m target ++
  printAvatar (fetchAv m.author.avatarUrl) ++
  printAuthorLine m.author.displayName timestamp (isMentionFlag m target)
    (roleMentionFlag m target) m.mentionEveryone ++
  printContent m.content width ++
  printAttachments fetchAtt m ++
  printSeparator

/-- Outcome of one print job: connection failure (zero directives written), or
success carrying the written directive sequence. -/
inductive SubmitResult
  | success (written : List Directive)
  | connectError
deriving DecidableEq

/-- The directives actually transmitted for a job outcome. -/
def SubmitResult.written : SubmitResult → List Directive
  | SubmitResult.success l => l
  | SubmitResult.connectError => []

/-- ReceiptPrinter.print_message: _connect gives a connection (conn) or fails;
on failure the method returns before emitting anything. -/
def printMessage (conn : Bool) (m : Message) (target : Nat) (timestamp : Str)
    (fetchAv fetchAtt : Str → Option (Nat × Nat)) (width : Nat) : SubmitResult :=
  if conn then
    SubmitResult.success (renderDirectives m target timestamp fetchAv fetchAtt width)
  else SubmitResult.connectError

/-- new_width = min(img.width, max_width) in _download_and_process_image. -/
def newWidth (w maxW : Nat) : Nat := min w maxW

/-- Round a rational to the nearest integer, ties to even: the significand
rounding used by IEEE-754 binary64 arithmetic. -/
def roundNE (x : ℚ) : ℤ :=
  if x - ⌊x⌋ < 1/2 then ⌊x⌋
  else if 1/2 < x - ⌊x⌋ then ⌊x⌋ + 1
  else if Even ⌊x⌋ then ⌊x⌋ else ⌊x⌋ + 1

/-- The IEEE-754 binary64 (Python float) value of a nonnegative rational:
the significand is rounded to 53 bits, nearest, ties to even. The exponent
range is unbounded (image dimensions keep every intermediate value far from
the overflow and subnormal thresholds of a real double); nonpositive inputs
yield 0, the only nonpositive value that occurs being an exact 0.0. -/
def fl (q : ℚ) : ℚ :=
  if q ≤ 0 then 0
  else (roundNE (q * 2 ^ (52 - Int.log 2 q)) : ℚ) * 2 ^ (Int.log 2 q - 52)

/-- new_height = int(new_width * (img.height / img.width)) in
_download_and_process_image, under IEEE-754 double precision: the division
img.height / img.width and the multiplication by new_width each round to the
nearest binary64 value (fl), and Python int() truncates toward zero — a floor,
since the value is nonnegative. -/
def newHeight (w h maxW : Nat) : ℤ :=
  ⌊fl ((newWidth w maxW : ℚ) * fl ((h : ℚ) / (w : ℚ)))⌋

/-- Outcome of one requests.get attempt: the request raises, or returns a
response with a status code and a body that does or does not decode as an
image of the recorded dimensions. -/
inductive HttpAttempt
  | raises
  | resp (status : Nat) (decodable : Bool) (w h : Nat)

/-- The shared download skeleton of _download_and_process_avatar and
_download_and_process_image: first component is the returned bitmap dimensions
(none on any failure), second records whether the except branch logged. A
non-200 status falls through the if with no return and no log; a raised
request or decode error is caught and logged. -/
def fetchImageDims (r : HttpAttempt) (proc : Nat → Nat → Nat × Nat) :
    Option (Nat × Nat) × Bool :=
  match r with
  | HttpAttempt.raises => (none, true)
  | HttpAttempt.resp status decodable w h =>
    if status = 200 then
      if decodable then (some (proc w h), false) else (none, true)
    else (none, false)

/-- The avatar resize: fixed size x size square. -/
def avatarProc (size : Nat) : Nat → Nat → Nat × Nat := fun _ _ => (size, size)

/-- The attachment resize: width min(w, maxW), height from the truncated
double-precision product. -/
def attachmentProc (maxW : Nat) : Nat → Nat → Nat × Nat :=
  fun w h => (newWidth w maxW, (newHeight w h maxW).toNat)

/-- The failure condition of a fetch: raised request, non-200 status, or
undecodable body. -/
def fetchFailed : HttpAttempt → Prop
  | HttpAttempt.raises => True
  | HttpAttempt.resp status decodable _ _ => status ≠ 200 ∨ decodable = false

/-- The cases where the fetch helpers execute their except branch (and log):
a raised request, or a 200 response whose body fails to decode. -/
def fetchRaised : HttpAttempt → Prop
  | HttpAttempt.raises => True
  | HttpAttempt.resp status decodable _ _ => status = 200 ∧ decodable = false

/-- A concrete guild message mentioning user 7 directly, with no role mention,
no broadcast mention, no reply, and body "hello there friend". -/
def guildMsg : Message where
  guild := some { name := "server".toList, member := fun _ => none }
  channelName := "general".toList
  author :=
    { id := 1, name := "bob".toList, displayName := "bob".toList,
      avatarUrl := "http://avatar".toList }
  content := "hello there friend".toList
  mentions := [7]
  roleMentions := []
  mentionEveryone := false
  reference := none
  attachments := []

/-- A concrete direct message (no guild) whose mention list contains the
monitored id 7. -/
def dmMsg : Message where
  guild := none
  channelName := []
  author :=
    { id := 1, name := "alice".toList, displayName := "alice".toList,
      avatarUrl := "http://a".toList }
  content := "hi".toList
  mentions := [7]
  roleMentions := []
  mentionEveryone := false
  reference := none
  attachments := []

/-! Lemmas about the word-wrap and tokenizer. -/

theorem wrapCore_flatten (width : Nat) (ws : List Str) (line : Str) :
    (wrapCore width ws line).flatten =
      line ++ (ws.map (fun w => w ++ [' '])).flatten := by
  induction ws generalizing line with
  | nil => cases line <;> simp [wrapCore]
  | cons w ws ih =>
    rw [wrapCore]
    by_cases h : (line ++ w).length < width
    · rw [if_pos h, ih]
      simp [List.append_assoc]
    · rw [if_neg h]
      simp [ih, List.append_assoc]

theorem pySplitAux_tokens (s : Str) :
    ∀ cur, (∀ c ∈ cur, isWs c = false) →
      ∀ t ∈ pySplitAux s cur, t ≠ [] ∧ ∀ c ∈ t, isWs c = false := by
  induction s with
  | nil =>
    intro cur hcur t ht
    cases cur with
    | nil => simp [pySplitAux] at ht
    | cons c cs =>
      simp [pySplitAux] at ht
      subst ht
      refine ⟨by simp, ?_⟩
      intro d hd
      apply hcur
      rcases List.mem_append.mp hd with h1 | h1
      · exact List.mem_cons_of_mem _ (List.mem_reverse.mp h1)
      · simp only [List.mem_singleton] at h1
        subst h1
        exact List.mem_cons_self _ _
  | cons c cs ih =>
    intro cur hcur t ht
    by_cases h : isWs c = true
    · cases cur with
      | nil =>
        simp only [pySplitAux, h, List.isEmpty_nil, if_true] at ht
        exact ih [] (by simp) t ht
      | cons c0 cs0 =>
        simp only [pySplitAux, h, List.isEmpty_cons, if_true, if_false,
          List.mem_cons, Bool.false_eq_true] at ht
        rcases ht with rfl | ht'
        · refine ⟨by simp, ?_⟩
          intro d hd
          exact hcur d (List.mem_reverse.mp hd)
        · exact ih [] (by simp) t ht'
    · have hc : isWs c = false := by
        cases hx : isWs c
        · rfl
        · exact absurd hx h
      simp only [pySplitAux, hc, Bool.false_eq_true, if_false] at ht
      refine ih (c :: cur) ?_ t ht
      intro d hd
      rcases List.mem_cons.mp hd with rfl | hd'
      · exact hc
      · exact hcur d hd'

theorem pySplit_tokens (s : Str) :
    ∀ t ∈ pySplit s, t ≠ [] ∧ ∀ c ∈ t, isWs c = false :=
  pySplitAux_tokens s [] (by simp)

theorem pySplitAux_append (t s : Str) :
    ∀ cur, (∀ c ∈ t, isWs c = false) →
      pySplitAux (t ++ s) cur = pySplitAux s (t.reverse ++ cur) := by
  induction t with
  | nil => intro cur _; simp
  | cons c cs ih =>
    intro cur h
    have hc : isWs c = false := h c (List.mem_cons_self _ _)
    simp only [List.cons_append, pySplitAux, hc, Bool.false_eq_true, if_false,
      List.append_eq]
    rw [ih (c :: cur) (fun d hd => h d (List.mem_cons_of_mem _ hd))]
    simp [List.append_assoc]

theorem pySplit_flatten_tokens (ts : List Str)
    (h : ∀ t ∈ ts, t ≠ [] ∧ ∀ c ∈ t, isWs c = false) :
    pySplit ((ts.map (fun t => t ++ [' '])).flatten) = ts := by
  induction ts with
  | nil => simp [pySplit, pySplitAux]
  | cons t ts ih =>
    have ht := h t (List.mem_cons_self _ _)
    have hrest := ih (fun u hu => h u (List.mem_cons_of_mem _ hu))
    have hne : t.reverse.isEmpty = false := by
      cases hx : t.reverse.isEmpty
      · rfl
      · exact absurd (List.isEmpty_iff.mp hx) (by simpa using ht.1)
    unfold pySplit
    simp only [List.map_cons, List.flatten_cons, List.append_assoc]
    rw [pySplitAux_append t _ [] ht.2]
    simp only [List.append_nil, List.singleton_append, pySplitAux,
      show isWs ' ' = true from rfl, if_true, hne, Bool.false_eq_true, if_false,
      List.reverse_reverse]
    exact congrArg (t :: ·) hrest

theorem wrapCore_overwide (W : Nat) (ws : List Str) (line : Str) :
    ∀ l ∈ wrapCore W ws line, W < l.length →
      l = line ∨ ∃ t ∈ ws, l = t ++ [' '] ∧ W ≤ t.length := by
  induction ws generalizing line with
  | nil =>
    intro l hl hlen
    by_cases h : line.isEmpty <;> simp [wrapCore, h] at hl
    exact Or.inl hl
  | cons w ws ih =>
    intro l hl hlen
    rw [wrapCore] at hl
    by_cases h : (line ++ w).length < W
    · rw [if_pos h] at hl
      rcases ih (line ++ w ++ [' ']) l hl hlen with h1 | ⟨t, htm, hte, hlt⟩
      · exfalso
        subst h1
        simp only [List.length_append, List.length_cons, List.length_nil] at hlen
        simp only [List.length_append] at h
        omega
      · exact Or.inr ⟨t, List.mem_cons_of_mem _ htm, hte, hlt⟩
    · rw [if_neg h] at hl
      rcases List.mem_cons.mp hl with rfl | hl'
      · exact Or.inl rfl
      · rcases ih (w ++ [' ']) l hl' hlen with h1 | ⟨t, htm, hte, hlt⟩
        · subst h1
          refine Or.inr ⟨w, List.mem_cons_self _ _, rfl, ?_⟩
          simp only [List.length_append, List.length_cons, List.length_nil] at hlen
          omega
        · exact Or.inr ⟨t, List.mem_cons_of_mem _ htm, hte, hlt⟩

theorem wrapCore_flush_head (W : Nat) (ws : List Str) (line : Str)
    (hlen : W ≤ line.length) (hne : line ≠ []) :
    ∃ rest, wrapCore W ws line = line :: rest := by
  cases ws with
  | nil =>
    refine ⟨[], ?_⟩
    rw [wrapCore, if_neg (by simpa using hne)]
  | cons w ws =>
    have hcond : ¬ (line ++ w).length < W := by
      simp only [List.length_append]
      omega
    exact ⟨wrapCore W ws (w ++ [' ']), by rw [wrapCore, if_neg hcond]⟩

theorem wrapCore_token_line (W : Nat) (ws : List Str) (t : Str)
    (hlen : W < t.length) :
    ∀ line, t ∈ ws → t ++ [' '] ∈ wrapCore W ws line := by
  induction ws with
  | nil => intro line ht; cases ht
  | cons w ws ih =>
    intro line ht
    rw [wrapCore]
    rcases List.mem_cons.mp ht with rfl | ht'
    · have hcond : ¬ (line ++ t).length < W := by
        simp only [List.length_append]
        omega
      rw [if_neg hcond]
      obtain ⟨rest, hr⟩ := wrapCore_flush_head W ws (t ++ [' '])
        (by simp only [List.length_append, List.length_cons, List.length_nil]; omega)
        (by simp)
      rw [hr]
      exact List.mem_cons_of_mem _ (List.mem_cons_self _ _)
    · by_cases h : (line ++ w).length < W
      · rw [if_pos h]
        exact ih _ ht'
      · rw [if_neg h]
        exact List.mem_cons_of_mem _ (ih _ ht')

theorem pySplitAux_all_ws (s : Str) :
    (∀ c ∈ s, isWs c = true) → pySplitAux s [] = [] := by
  induction s with
  | nil => intro _; rfl
  | cons c cs ih =>
    intro h
    have hc := h c (List.mem_cons_self _ _)
    simp only [pySplitAux, hc, if_true, List.isEmpty_nil]
    exact ih (fun d hd => h d (List.mem_cons_of_mem _ hd))

/-! Lemmas about the binary64 rounding model. -/

theorem roundNE_eq_of_lt (x : ℚ) (f : ℤ) (h1 : (f:ℚ) ≤ x) (h2 : x < (f:ℚ) + 1/2) :
    roundNE x = f := by
  have hf : ⌊x⌋ = f := Int.floor_eq_iff.mpr ⟨h1, by linarith⟩
  rw [roundNE, hf, if_pos (by linarith)]

theorem fl_eq_of (q : ℚ) (e M : ℤ) (hq : 0 < q)
    (he1 : (2:ℚ) ^ e ≤ q) (he2 : q < (2:ℚ) ^ (e + 1))
    (hM : roundNE (q * 2 ^ (52 - e)) = M) :
    fl q = (M : ℚ) * 2 ^ (e - 52) := by
  have hb : ((2:ℕ):ℚ) = (2:ℚ) := by norm_num
  have hle : e ≤ Int.log 2 q := by
    rw [← Int.zpow_le_iff_le_log (by norm_num) hq, hb]
    exact he1
  have hlt : Int.log 2 q < e + 1 := by
    rw [← Int.lt_zpow_iff_log_lt (by norm_num) hq, hb]
    exact he2
  have hlog : Int.log 2 q = e := by omega
  rw [fl, if_neg (not_le.mpr hq), hlog, hM]

theorem abs_roundNE_sub_le (x : ℚ) : |(roundNE x : ℚ) - x| ≤ 1/2 := by
  have h0 : (⌊x⌋ : ℚ) ≤ x := Int.floor_le x
  have h1 : x < ⌊x⌋ + 1 := Int.lt_floor_add_one x
  rw [roundNE]
  by_cases hlt : x - ⌊x⌋ < 1/2
  · rw [if_pos hlt]
    rw [abs_sub_comm, abs_of_nonneg (by linarith)]
    linarith
  · rw [if_neg hlt]
    by_cases hgt : (1:ℚ)/2 < x - ⌊x⌋
    · rw [if_pos hgt]
      push_cast
      rw [abs_of_nonneg (by linarith)]
      linarith
    · rw [if_neg hgt]
      have heq : x - ⌊x⌋ = 1/2 := le_antisymm (not_lt.mp hgt) (not_lt.mp hlt)
      by_cases he : Even ⌊x⌋
      · rw [if_pos he, abs_sub_comm, abs_of_nonneg (by linarith)]
        linarith
      · rw [if_neg he]
        push_cast
        rw [abs_of_nonneg (by linarith)]
        linarith

theorem fl_error (q : ℚ) (hq : 0 < q) : |fl q - q| ≤ q / 2 ^ 53 := by
  rw [fl, if_neg (not_le.mpr hq)]
  set L := Int.log 2 q with hL
  set s := q * 2 ^ (52 - L) with hs
  have hzpos : ∀ k : ℤ, (0:ℚ) < 2 ^ k := fun k => zpow_pos (by norm_num) k
  have h2ne : (2:ℚ) ≠ 0 := by norm_num
  have hq2 : q = s * 2 ^ (L - 52) := by
    rw [hs, mul_assoc, ← zpow_add₀ h2ne]
    norm_num
  have h2e : (2:ℚ) ^ L ≤ q := by
    rw [hL, ← show ((2:ℕ):ℚ) = 2 by norm_num]
    exact Int.zpow_log_le_self (by norm_num) hq
  have key : |(roundNE s : ℚ) * 2 ^ (L - 52) - q| = |(roundNE s : ℚ) - s| * 2 ^ (L - 52) := by
    conv_lhs => rw [hq2]
    rw [← sub_mul, abs_mul, abs_of_pos (hzpos _)]
  rw [key]
  calc |(roundNE s : ℚ) - s| * 2 ^ (L - 52)
      ≤ (1/2) * 2 ^ (L - 52) := mul_le_mul_of_nonneg_right (abs_roundNE_sub_le _) (hzpos _).le
    _ = 2 ^ (L - 53) := by
        rw [show (1:ℚ)/2 = 2 ^ (-1 : ℤ) by norm_num, ← zpow_add₀ h2ne]
        congr 1
        ring
    _ ≤ q * 2 ^ ((-53 : ℤ)) := by
        rw [show (L - 53 : ℤ) = L + (-53) by ring, zpow_add₀ h2ne]
        exact mul_le_mul_of_nonneg_right h2e (hzpos _).le
    _ = q / 2 ^ 53 := by
        rw [div_eq_mul_inv]
        norm_num

theorem fl_pos (q : ℚ) (hq : 0 < q) : 0 < fl q := by
  have h := abs_le.mp (fl_error q hq)
  have h2 : q / 2 ^ 53 < q := by
    rw [div_lt_iff₀ (by positivity)]
    nlinarith
  linarith [h.1]

theorem fl_nonneg (q : ℚ) : 0 ≤ fl q := by
  by_cases hq : q ≤ 0
  · rw [fl, if_pos hq]
  · exact (fl_pos q (not_le.mp hq)).le

theorem fl_three_halves : fl ((3:ℚ)/2) = 3/2 := by
  have h := fl_eq_of ((3:ℚ)/2) 0 6755399441055744 (by norm_num) (by norm_num)
    (by norm_num) (roundNE_eq_of_lt _ 6755399441055744 (by norm_num) (by norm_num))
  rw [h]
  norm_num

theorem fl_inv49 : fl ((1:ℚ)/49) = 5882252574524729 * 2 ^ ((-58 : ℤ)) := by
  have h := fl_eq_of ((1:ℚ)/49) (-6) 5882252574524729 (by norm_num) (by norm_num)
    (by norm_num) (roundNE_eq_of_lt _ 5882252574524729 (by norm_num) (by norm_num))
  rw [h]
  norm_num

theorem fl_mul49_inv49 : fl ((49:ℚ) * (5882252574524729 * 2 ^ ((-58 : ℤ)))) =
    9007199254740991 * 2 ^ ((-53 : ℤ)) := by
  have harg : (49:ℚ) * (5882252574524729 * 2 ^ ((-58 : ℤ))) =
      288230376151711721 / 288230376151711744 := by norm_num
  rw [harg]
  have h := fl_eq_of (288230376151711721 / 288230376151711744 : ℚ) (-1) 9007199254740991
    (by norm_num) (by norm_num) (by norm_num)
    (roundNE_eq_of_lt _ 9007199254740991 (by norm_num) (by norm_num))
  rw [h]
  norm_num

/-! Claim theorems. -/

/-- Claim C4: for every text T and width W ≥ 1, concatenating the lines of
wrap(T, W) with the inserted line breaks stripped reproduces the
whitespace-separated tokens of T, in their original order, each followed by a
single space; re-tokenizing the concatenation recovers exactly the tokens of T. -/
theorem wrap_roundtrip (T : Str) (W : Nat) (hW : 1 ≤ W) :
    (wrap T W).flatten = ((pySplit T).map (fun t => t ++ [' '])).flatten ∧
    pySplit ((wrap T W).flatten) = pySplit T := by
  have h1 : (wrap T W).flatten = ((pySplit T).map (fun t => t ++ [' '])).flatten := by
    unfold wrap
    rw [wrapCore_flatten]
    rfl
  refine ⟨h1, ?_⟩
  rw [h1]
  exact pySplit_flatten_tokens (pySplit T) (pySplit_tokens T)

/-- Witness for wrap_roundtrip at text "ab cd" and width 3. -/
theorem wrap_roundtrip_witness :
    (wrap "ab cd".toList 3).flatten =
      ((pySplit "ab cd".toList).map (fun t => t ++ [' '])).flatten ∧
    pySplit ((wrap "ab cd".toList 3).flatten) = pySplit "ab cd".toList :=
  wrap_roundtrip "ab cd".toList 3 (by decide)

/-- Claim C3, counterexample: at text "abc wxyz" and width 3 (a text containing
the token "wxyz" of length exceeding the width), the emitted line "abc " has
length 4 > 3 even though its token "abc" has length 3, which does not exceed
the width — so lines can exceed maxWidth without any over-long token on them. -/
theorem wrap_overlong_counterexample :
    (∃ t ∈ pySplit "abc wxyz".toList, 3 < t.length) ∧
    ¬ (∀ l ∈ wrap "abc wxyz".toList 3, 3 < l.length →
        ∃ t ∈ pySplit "abc wxyz".toList, l = t ++ [' '] ∧ 3 < t.length) := by
  decide

/-- Claim C3, amended: a token whose length exceeds maxWidth is placed on its
own line verbatim (followed by the single trailing space the algorithm appends,
never split mid-word); conversely a line's length exceeds maxWidth only when
that line consists of a single token of length ≥ maxWidth plus its trailing
space. -/
theorem wrap_overlong_amended (T : Str) (W : Nat) :
    (∀ t ∈ pySplit T, W < t.length → t ++ [' '] ∈ wrap T W) ∧
    (∀ l ∈ wrap T W, W < l.length →
      ∃ t ∈ pySplit T, l = t ++ [' '] ∧ W ≤ t.length) := by
  constructor
  · intro t ht hlen
    exact wrapCore_token_line W (pySplit T) t hlen [] ht
  · intro l hl hlen
    rcases wrapCore_overwide W (pySplit T) [] l hl hlen with rfl | h
    · exact absurd hlen (by simp)
    · exact h

/-- Witness for wrap_overlong_amended: the over-long token "wxyz" of
"abc wxyz" at width 3 appears verbatim as its own line. -/
theorem wrap_overlong_amended_witness :
    "wxyz ".toList ∈ wrap "abc wxyz".toList 3 :=
  (wrap_overlong_amended "abc wxyz".toList 3).1 "wxyz".toList (by decide) (by decide)

/-- Claim C9: when the first token of the input has length ≥ maxWidth, the
flush of the still-empty current line emits a leading blank line, followed by
that token's own line. -/
theorem wrap_leading_blank (T : Str) (W : Nat) (w : Str) (ws : List Str)
    (hsplit : pySplit T = w :: ws) (hlen : W ≤ w.length) :
    ∃ rest, wrap T W = [] :: (w ++ [' ']) :: rest := by
  unfold wrap
  rw [hsplit, wrapCore]
  have hcond : ¬ (([] : Str) ++ w).length < W := by
    simp only [List.nil_append]
    omega
  rw [if_neg hcond]
  obtain ⟨rest, hr⟩ := wrapCore_flush_head W ws (w ++ [' '])
    (by simp only [List.length_append, List.length_cons, List.length_nil]; omega)
    (by simp)
  rw [hr]
  exact ⟨rest, rfl⟩

/-- Witness for wrap_leading_blank at text "abc" and width 3. -/
theorem wrap_leading_blank_witness :
    ∃ rest, wrap "abc".toList 3 = [] :: ("abc".toList ++ [' ']) :: rest :=
  wrap_leading_blank "abc".toList 3 "abc".toList [] (by decide) (by decide)

/-- Claim C10: a non-empty input consisting only of whitespace wraps to zero
lines, and the body step emits no text directive (only its style directive). -/
theorem wrap_whitespace_only (T : Str) (W : Nat) (hne : T ≠ [])
    (hws : ∀ c ∈ T, isWs c = true) :
    wrap T W = [] ∧
    printContent T W =
      [Directive.setStyle (some Align.left) (some Font.fa) (some false)] := by
  have hsplit : pySplit T = [] := pySplitAux_all_ws T hws
  have hwrap : wrap T W = [] := by
    unfold wrap
    rw [hsplit]
    rfl
  exact ⟨hwrap, by simp [printContent, hwrap]⟩

/-- Witness for wrap_whitespace_only at the three-space input and width 60. -/
theorem wrap_whitespace_only_witness :
    wrap "   ".toList 60 = [] ∧
    printContent "   ".toList 60 =
      [Directive.setStyle (some Align.left) (some Font.fa) (some false)] :=
  wrap_whitespace_only "   ".toList 60 (by decide) (by decide)

/-- Claim C5: a guild message that directly mentions the monitored identity
(and triggers no other rule) passes with exactly the direct-mention tag, and
the body "hello there friend" wrapped at width 10 is exactly the three lines
"hello ", "there ", "friend ". -/
theorem guild_mention_scenario (m : Message) (g : Guild) (t : Nat)
    (hg : m.guild = some g) (hm : t ∈ m.mentions) (hr : m.roleMentions = [])
    (he : m.mentionEveryone = false) (href : m.reference = none) :
    evaluate m t = ⟨true, true, false, false, false⟩ ∧
    wrap "hello there friend".toList 10 =
      ["hello ".toList, "there ".toList, "friend ".toList] := by
  have hmf : isMentionFlag m t = true := by
    simp only [isMentionFlag, List.any_eq_true, beq_iff_eq]
    exact ⟨t, hm, rfl⟩
  have hrf : roleMentionFlag m t = false := by
    simp [roleMentionFlag, hg, hr]
  have hrpf : replyFlag m t = false := by
    simp [replyFlag, href]
  refine ⟨?_, by decide⟩
  simp [evaluate, shouldPrint, hg, hmf, hrf, he, hrpf, Verdict.mk.injEq]

/-- Witness for guild_mention_scenario at the concrete message guildMsg. -/
theorem guild_mention_scenario_witness :
    evaluate guildMsg 7 = ⟨true, true, false, false, false⟩ ∧
    wrap "hello there friend".toList 10 =
      ["hello ".toList, "there ".toList, "friend ".toList] :=
  guild_mention_scenario guildMsg
    { name := "server".toList, member := fun _ => none } 7 rfl
    (by decide) rfl rfl rfl

/-- Claim C6: when the connection to the printer endpoint fails, print_message
returns the connect-error outcome and zero directives are written. -/
theorem submit_connect_failure (m : Message) (t : Nat) (ts : Str)
    (fetchAv fetchAtt : Str → Option (Nat × Nat)) (W : Nat) :
    printMessage false m t ts fetchAv fetchAtt W = SubmitResult.connectError ∧
    (printMessage false m t ts fetchAv fetchAtt W).written = [] :=
  ⟨rfl, rfl⟩

/-- Claim C1, counterexample: for the direct-message dmMsg mentioning the
monitored id 7, the verdict passes but carries the direct-mention tag, and the
rendered directives contain the " @" author-line badge — the tag set of a DM
is neither empty nor independent of the mention fields. -/
theorem dm_badges_counterexample :
    dmMsg.guild = none ∧
    (evaluate dmMsg 7).pass = true ∧
    (evaluate dmMsg 7).directMention = true ∧
    Directive.text " @".toList ∈
      renderDirectives dmMsg 7 "12:00:00".toList (fun _ => none) (fun _ => none) 60 := by
  refine ⟨rfl, rfl, rfl, ?_⟩
  decide

/-- Claim C1, amended: a direct-message event always passes independent of its
mention fields, and its role-mention tag is always absent; but print_message
computes the direct-mention and broadcast-mention flags with no origin check,
so they equal the event's mention fields, and a DM whose mention list contains
the monitored identity does render the " @" badge on the author line. -/
theorem dm_verdict_amended (m : Message) (t : Nat) (ts : Str)
    (fetchAv fetchAtt : Str → Option (Nat × Nat)) (W : Nat)
    (h : m.guild = none) :
    (evaluate m t).pass = true ∧
    (evaluate m t).roleMention = false ∧
    (evaluate m t).directMention = isMentionFlag m t ∧
    (evaluate m t).broadcastMention = m.mentionEveryone ∧
    (isMentionFlag m t = true →
      Directive.text " @".toList ∈ renderDirectives m t ts fetchAv fetchAtt W) := by
  refine ⟨?_, ?_, rfl, rfl, ?_⟩
  · simp [evaluate, shouldPrint, h]
  · simp [evaluate, roleMentionFlag, h]
  · intro hm
    simp [renderDirectives, printAuthorLine, hm, List.mem_append]

/-- Witness for dm_verdict_amended at the concrete direct message dmMsg. -/
theorem dm_verdict_amended_witness :
    (evaluate dmMsg 7).pass = true ∧
    (evaluate dmMsg 7).roleMention = false ∧
    (evaluate dmMsg 7).directMention = isMentionFlag dmMsg 7 ∧
    (evaluate dmMsg 7).broadcastMention = dmMsg.mentionEveryone ∧
    (isMentionFlag dmMsg 7 = true →
      Directive.text " @".toList ∈
        renderDirectives dmMsg 7 "12:00:00".toList (fun _ => none) (fun _ => none) 60) :=
  dm_verdict_amended dmMsg 7 "12:00:00".toList (fun _ => none) (fun _ => none) 60 rfl

/-- Claim C2, counterexample: for an original width 2, height 3 image and
maxWidth 1, the code computes new_width 1 and height int(1 * (3/2)) = 1 (the
double 3/2 is exact), while round(1 * 3 / 2) = 2 — the code truncates the
scaled height, it does not round it. Moreover the truncated double product can
even undercut the exact quotient: a 49 x 1 image at maxWidth 384 keeps
new_width 49, the exact height 49 * 1 / 49 is 1 (and round gives 1), yet the
program computes int(49 * (1/49)) = int(0.9999999999999999) = 0. -/
theorem attachment_resize_counterexample :
    newWidth 2 1 = 1 ∧ newHeight 2 3 1 = 1 ∧
    round (((newWidth 2 1 : ℚ) * 3) / 2) = 2 ∧
    newHeight 2 3 1 ≠ round (((newWidth 2 1 : ℚ) * 3) / 2) ∧
    newWidth 49 384 * 1 / 49 = 1 ∧
    round (((newWidth 49 384 : ℚ) * 1) / 49) = 1 ∧
    newHeight 49 1 384 = 0 := by
  have hcast : ((newWidth 2 1 : ℕ) : ℚ) = 1 := by norm_num [newWidth]
  have hcast49 : ((newWidth 49 384 : ℕ) : ℚ) = 49 := by norm_num [newWidth]
  have hround : round (((newWidth 2 1 : ℚ) * 3) / 2) = 2 := by
    rw [hcast]
    norm_num [round_eq]
  have hc32 : ((3:ℕ):ℚ) / ((2:ℕ):ℚ) = 3/2 := by norm_num
  have hh231 : newHeight 2 3 1 = 1 := by
    rw [newHeight, hc32, hcast, fl_three_halves, one_mul, fl_three_halves]
    norm_num
  have hc149 : ((1:ℕ):ℚ) / ((49:ℕ):ℚ) = 1/49 := by norm_num
  have hh49 : newHeight 49 1 384 = 0 := by
    rw [newHeight, hc149, hcast49, fl_inv49, fl_mul49_inv49]
    norm_num
  refine ⟨rfl, hh231, hround, ?_, by norm_num [newWidth], ?_, hh49⟩
  · rw [hh231, hround]
    decide
  · rw [hcast49]
    norm_num [round_eq]

/-- Claim C2, amended: the attachment resize uses newWidth = min(w0, maxWidth);
the integer height is the truncation toward zero of the double-precision
product newWidth * (h0 / w0) — not round, and because of the two binary64
roundings it can even undercut the exact floor (49 x 1 at maxWidth 384 gives
0, not 1). The height is nonnegative and the output height/width ratio differs
from h0/w0 by at most 1/newWidth — the error of the single integer truncation
— plus a double-rounding term of at most (h0/w0)/2^51. The bounds w0, h0 ≤
2^53 delimit the region where the embedding is bit-faithful: there the integer
operands convert to doubles exactly and every intermediate stays in the normal
range; they are not needed for the inequality itself. -/
theorem attachment_resize_amended (w0 h0 maxW : Nat) (hw : 0 < w0)
    (hmw : 0 < maxW) (hw53 : w0 ≤ 2 ^ 53) (hh53 : h0 ≤ 2 ^ 53) :
    newWidth w0 maxW = min w0 maxW ∧
    0 ≤ newHeight w0 h0 maxW ∧
    |(newHeight w0 h0 maxW : ℚ) / (newWidth w0 maxW) - (h0 : ℚ) / w0| ≤
      1 / (newWidth w0 maxW) + ((h0 : ℚ) / w0) / 2 ^ 51 := by
  have hWnat : 0 < newWidth w0 maxW := lt_min hw hmw
  refine ⟨rfl, Int.floor_nonneg.mpr (fl_nonneg _), ?_⟩
  have hunfold : newHeight w0 h0 maxW =
      ⌊fl ((newWidth w0 maxW : ℚ) * fl ((h0 : ℚ) / (w0 : ℚ)))⌋ := rfl
  set W : ℚ := (newWidth w0 maxW : ℚ) with hWdef
  set R : ℚ := (h0 : ℚ) / (w0 : ℚ) with hRdef
  have hWpos : 0 < W := by
    rw [hWdef]
    exact_mod_cast hWnat
  rcases Nat.eq_zero_or_pos h0 with h0z | h0pos
  · have hR0 : R = 0 := by
      rw [hRdef, h0z]
      norm_num
    have hA0 : fl R = 0 := by
      rw [hR0, fl, if_pos le_rfl]
    have hP0 : fl (W * fl R) = 0 := by
      rw [hA0, mul_zero, fl, if_pos le_rfl]
    rw [hunfold, hP0, hR0]
    norm_num
    positivity
  · have hRpos : 0 < R := by
      rw [hRdef]
      have h1 : (0:ℚ) < (h0 : ℚ) := by exact_mod_cast h0pos
      have h2 : (0:ℚ) < (w0 : ℚ) := by exact_mod_cast hw
      positivity
    set A : ℚ := fl R with hAdef
    have hA_err := abs_le.mp (fl_error R hRpos)
    have hApos : 0 < A := fl_pos R hRpos
    have hWApos : 0 < W * A := mul_pos hWpos hApos
    set P : ℚ := fl (W * A) with hPdef
    have hP_err := abs_le.mp (fl_error (W * A) hWApos)
    have hfl_le : ((⌊P⌋ : ℤ) : ℚ) ≤ P := Int.floor_le P
    have hfl_gt : P - 1 < ((⌊P⌋ : ℤ) : ℚ) := Int.sub_one_lt_floor P
    have hA_up : A ≤ R + R / 2 ^ 53 := by linarith [hA_err.2]
    have hA_lo : R - R / 2 ^ 53 ≤ A := by linarith [hA_err.1]
    have hP_up : P ≤ W * A + (W * A) / 2 ^ 53 := by linarith [hP_err.2]
    have hP_lo : W * A - (W * A) / 2 ^ 53 ≤ P := by linarith [hP_err.1]
    have hWA_up : W * A ≤ W * (R + R / 2 ^ 53) := mul_le_mul_of_nonneg_left hA_up hWpos.le
    have hWA_lo : W * (R - R / 2 ^ 53) ≤ W * A := mul_le_mul_of_nonneg_left hA_lo hWpos.le
    have hWRpos : 0 < W * R := mul_pos hWpos hRpos
    have core_up : ((⌊P⌋ : ℤ) : ℚ) - W * R ≤ (W * R) / 2 ^ 51 := by
      linarith [hfl_le, hP_up, hWA_up, hWRpos.le]
    have core_lo : W * R - ((⌊P⌋ : ℤ) : ℚ) ≤ 1 + (W * R) / 2 ^ 51 := by
      linarith [hfl_gt, hP_lo, hWA_lo, hWA_up, hWRpos.le]
    have habs : |((⌊P⌋ : ℤ) : ℚ) - W * R| ≤ 1 + (W * R) / 2 ^ 51 := by
      rw [abs_le]
      constructor
      · linarith
      · linarith [hWRpos.le]
    have hratio : (newHeight w0 h0 maxW : ℚ) / W - R = (((⌊P⌋ : ℤ) : ℚ) - W * R) / W := by
      rw [hunfold]
      field_simp
    rw [hratio, abs_div, abs_of_pos hWpos]
    calc |((⌊P⌋ : ℤ) : ℚ) - W * R| / W ≤ (1 + (W * R) / 2 ^ 51) / W := by gcongr
      _ = 1 / W + R / 2 ^ 51 := by
          field_simp
          ring

/-- Witness for attachment_resize_amended at w0 = 2, h0 = 3, maxWidth = 1. -/
theorem attachment_resize_amended_witness :
    newWidth 2 1 = min 2 1 ∧
    0 ≤ newHeight 2 3 1 ∧
    |(newHeight 2 3 1 : ℚ) / (newWidth 2 1) - ((3 : ℕ) : ℚ) / ((2 : ℕ) : ℚ)| ≤
      1 / (newWidth 2 1) + (((3 : ℕ) : ℚ) / ((2 : ℕ) : ℚ)) / 2 ^ 51 :=
  attachment_resize_amended 2 3 1 (by norm_num) (by norm_num) (by norm_num) (by norm_num)

/-- Claim C7, counterexample: a 404 response with a perfectly decodable body
yields absent (no bitmap) but does NOT log — the helper only logs in its
except branch, and a non-200 status falls through the if without a return and
without a log. -/
theorem fetch_logging_counterexample :
    (fetchImageDims (HttpAttempt.resp 404 true 10 10) (avatarProc 64)).1 = none ∧
    (fetchImageDims (HttpAttempt.resp 404 true 10 10) (avatarProc 64)).2 = false := by
  decide

/-- Claim C7, amended: a fetch yields absent exactly on a raised request, a
non-200 status, or an undecodable body — and it is never raised to the caller
(the helper is total and returns none on every failure path); but it logs
exactly when the except branch runs (raised request or decode failure), not on
a non-200 response. -/
theorem fetch_error_amended (r : HttpAttempt) (proc : Nat → Nat → Nat × Nat) :
    ((fetchImageDims r proc).1 = none ↔ fetchFailed r) ∧
    ((fetchImageDims r proc).2 = true ↔ fetchRaised r) := by
  cases r with
  | raises => simp [fetchImageDims, fetchFailed, fetchRaised]
  | resp status decodable w h =>
    by_cases hs : status = 200
    · cases decodable <;> simp [fetchImageDims, fetchFailed, fetchRaised, hs]
    · simp [fetchImageDims, fetchFailed, fetchRaised, hs]

theorem cut_not_mem_printChannelHeader (m : Message) :
    Directive.cut ∉ printChannelHeader m := by
  cases hg : m.guild <;> simp [printChannelHeader, hg]

theorem cut_not_mem_printReplyIndicator (r : ResolvedRef) :
    Directive.cut ∉ printReplyIndicator r := by
  simp [printReplyIndicator]

theorem cut_not_mem_replySegment (m : Message) (t : Nat) :
    Directive.cut ∉ replySegment m t := by
  cases href : m.reference with
  | none => simp [replySegment, href]
  | some o =>
    cases o with
    | none => simp [replySegment, href]
    | some r =>
      by_cases hb : (r.authorId == t) = true
      · simp [replySegment, href, hb, printReplyIndicator]
      · rw [Bool.not_eq_true] at hb
        simp [replySegment, href, hb]

theorem cut_not_mem_printAvatar (fetched : Option (Nat × Nat)) :
    Directive.cut ∉ printAvatar fetched := by
  cases fetched <;> simp [printAvatar]

theorem cut_not_mem_printAuthorLine (an ts : Str) (b1 b2 b3 : Bool) :
    Directive.cut ∉ printAuthorLine an ts b1 b2 b3 := by
  cases b1 <;> cases b2 <;> cases b3 <;> simp [printAuthorLine]

theorem cut_not_mem_printContent (content : Str) (W : Nat) :
    Directive.cut ∉ printContent content W := by
  simp [printContent]

theorem cut_not_mem_printOneAttachment (fetchAtt : Str → Option (Nat × Nat))
    (a : Attachment) : Directive.cut ∉ printOneAttachment fetchAtt a := by
  cases hf : fetchAtt a.url <;> simp [printOneAttachment, hf]

theorem cut_not_mem_printAttachments (fetchAtt : Str → Option (Nat × Nat))
    (m : Message) : Directive.cut ∉ printAttachments fetchAtt m := by
  by_cases h1 : m.attachments.isEmpty
  · simp [printAttachments, h1]
  · rw [Bool.not_eq_true] at h1
    by_cases h2 : (m.attachments.filter (fun a => isImageFilename a.filename)).isEmpty
    · simp [printAttachments, h1, h2]
    · rw [Bool.not_eq_true] at h2
      simp only [printAttachments, h1, h2, Bool.false_eq_true, if_false,
        List.mem_cons, List.mem_flatten, List.mem_map, not_or]
      refine ⟨by simp, ?_⟩
      rintro ⟨l, ⟨a, _, rfl⟩, hmem⟩
      exact cut_not_mem_printOneAttachment fetchAtt a hmem

/-- Claim C8: the directives of a rendered message are exactly header, then
reply-marker segment (non-empty exactly when the reply-target tag is set),
then avatar, then author line, then body, then attachments, then cut; the cut
occurs nowhere before the terminal position. -/
theorem render_directive_order (m : Message) (t : Nat) (ts : Str)
    (fetchAv fetchAtt : Str → Option (Nat × Nat)) (W : Nat) :
    renderDirectives m t ts fetchAv fetchAtt W =
      printChannelHeader m ++ replySegment m t ++
      printAvatar (fetchAv m.author.avatarUrl) ++
      printAuthorLine m.author.displayName ts (isMentionFlag m t)
        (roleMentionFlag m t) m.mentionEveryone ++
      printContent m.content W ++ printAttachments fetchAtt m ++
      [Directive.cut] ∧
    (replySegment m t = [] ↔ (evaluate m t).replyTarget = false) ∧
    Directive.cut ∉
      (printChannelHeader m ++ replySegment m t ++
        printAvatar (fetchAv m.author.avatarUrl) ++
        printAuthorLine m.author.displayName ts (isMentionFlag m t)
          (roleMentionFlag m t) m.mentionEveryone ++
        printContent m.content W ++ printAttachments fetchAtt m) := by
  refine ⟨rfl, ?_, ?_⟩
  · have hrt : (evaluate m t).replyTarget = replyFlag m t := rfl
    rw [hrt]
    cases href : m.reference with
    | none => simp [replySegment, replyFlag, href]
    | some o =>
      cases o with
      | none => simp [replySegment, replyFlag, href]
      | some r =>
        by_cases hb : (r.authorId == t) = true
        · simp [replySegment, replyFlag, href, hb, printReplyIndicator]
        · rw [Bool.not_eq_true] at hb
          simp [replySegment, replyFlag, href, hb]
  · intro hmem
    simp only [List.mem_append] at hmem
    rcases hmem with ((((h | h) | h) | h) | h) | h
    · exact cut_not_mem_printChannelHeader m h
    · exact cut_not_mem_replySegment m t h
    · exact cut_not_mem_printAvatar _ h
    · exact cut_not_mem_printAuthorLine _ _ _ _ _ h
    · exact cut_not_mem_printContent _ _ h
    · exact cut_not_mem_printAttachments _ _ h

end Receipts
